import Mathlib

/-!
# Keychron Q1 custom matrix scan (`keyboards/keychron/q1/matrix.c`)

A shallow embedding of the matrix scanning code and of the hardware it drives.

* The code is embedded as state-passing functions over a `World`, the log of
  every GPIO primitive the code has called so far, in call order.
* Row-pin readings come from an oracle `Readings`: the level `readPin` sees
  for a pin at a given (column cycle, row index) call site.
* `uint8_t` loop counters are modelled with explicit wrap-around (`% 256`) and
  fuel; `matrix_row_t` is a natural number truncated to `ROW_BITS` bits.
* The GPIO pins and the 74HC595 are a small device model `HW` that interprets
  the log.
-/

namespace Q1Matrix

/-! ## Data model -/

/-- Modelled from the spec: the pin identifier type of the platform layer, "a
pin identifier type with a distinguished no-pin sentinel" (spec, section 6). A
concrete pin is a pad of a port. -/
inductive pin_t where
  | NO_PIN
  | line (port pad : Nat)
deriving DecidableEq, Repr

/-- Modelled from the spec: pin name `A7` of the platform headers (port A, pad 7). -/
def A7 : pin_t := pin_t.line 0 7
/-- Modelled from the spec: pin name `B1` of the platform headers (port B, pad 1). -/
def B1 : pin_t := pin_t.line 1 1
/-- Modelled from the spec: pin name `B0` of the platform headers (port B, pad 0). -/
def B0 : pin_t := pin_t.line 1 0

/-- Pin connected to DS of 74HC595. -/
def DATA_PIN : pin_t := A7
/-- Pin connected to SH_CP of 74HC595. -/
def CLOCK_PIN : pin_t := B1
/-- Pin connected to ST_CP of 74HC595. -/
def LATCH_PIN : pin_t := B0

/-- A row bitmask (`matrix_row_t`): an unsigned integer of `ROW_BITS` bits. -/
abbrev matrix_row_t := Nat

/-- An array of row bitmasks reached through a pointer (`matrix_row_t m[]`):
the row stored at each index. -/
abbrev Matrix := Nat → matrix_row_t

/-- Compile-time configuration: `MATRIX_ROWS`, `MATRIX_COLS`, the bit width of
`matrix_row_t`, and the two pin tables `row_pins[]` and `col_pins[]`. -/
structure Config where
  MATRIX_ROWS : Nat
  MATRIX_COLS : Nat
  ROW_BITS : Nat
  row_pins : Nat → pin_t
  col_pins : Nat → pin_t

/-- One call of a primitive of the platform layer, as it appears in the log. -/
inductive Ev where
  | setPinOutput (pin : pin_t)
  | writePinHigh (pin : pin_t)
  | writePinLow (pin : pin_t)
  | setPinInputHigh (pin : pin_t)
  | readPin (pin : pin_t) (value : Nat)
  | matrix_output_select_delay
  | matrix_output_unselect_delay (col : Nat) (key_pressed : Bool)
deriving DecidableEq, Repr

/-- The log of primitive calls made so far, oldest first. -/
abbrev World := List Ev

/-- The electrical state seen by the scan: `rd col row pin` is the level
(`true` = high) that `readPin pin` observes when it is called for row index
`row` while column `col` is selected. -/
abbrev Readings := Nat → Nat → pin_t → Bool

/-! ## Platform primitives (logged) -/

/-- Modelled from the spec: `configurePinAsOutput(pin)`. -/
def setPinOutput (pin : pin_t) (w : World) : World := w ++ [Ev.setPinOutput pin]
/-- Modelled from the spec: `writePinHigh(pin)`. -/
def writePinHigh (pin : pin_t) (w : World) : World := w ++ [Ev.writePinHigh pin]
/-- Modelled from the spec: `writePinLow(pin)`. -/
def writePinLow (pin : pin_t) (w : World) : World := w ++ [Ev.writePinLow pin]
/-- Modelled from the spec: `configurePinAsInputWithPullup(pin)`. -/
def setPinInputHigh (pin : pin_t) (w : World) : World := w ++ [Ev.setPinInputHigh pin]
/-- Modelled from the spec: `readPin(pin) -> 0|1`; the level comes from the
electrical state at this call site. -/
def readPin (level : pin_t → Bool) (pin : pin_t) (w : World) : Nat × World :=
  let v := if level pin then 1 else 0
  (v, w ++ [Ev.readPin pin v])
/-- Modelled from the spec: the settle delay after column selection. -/
def matrix_output_select_delay (w : World) : World := w ++ [Ev.matrix_output_select_delay]
/-- Modelled from the spec: the settle delay after column deselection. -/
def matrix_output_unselect_delay (col : Nat) (key_pressed : Bool) (w : World) : World :=
  w ++ [Ev.matrix_output_unselect_delay col key_pressed]

/-! ## The code of `matrix.c` -/

/-- The loop `for (uint8_t x = x0; x < bound; x++) body`, with the counter
wrapping at 256 as a `uint8_t` does. `none` when the fuel runs out. -/
def forU8 {σ : Type} (bound : Nat) (body : Nat → σ → Option σ) : Nat → Nat → σ → Option σ
  | 0, _, _ => none
  | fuel + 1, x, s =>
    if x < bound then
      match body x s with
      | none => none
      | some s1 => forU8 bound body fuel ((x + 1) % 256) s1
    else some s

/-- Configure as output, then drive low. `ATOMIC_BLOCK_FORCEON` only keeps
interrupts out of the pair; the embedding is sequential. -/
def setPinOutput_writeLow (pin : pin_t) (w : World) : World :=
  writePinLow pin (setPinOutput pin w)

/-- Configure as output, then drive high. -/
def setPinOutput_writeHigh (pin : pin_t) (w : World) : World :=
  writePinHigh pin (setPinOutput pin w)

/-- Configure as input with pull-up. -/
def setPinInputHigh_atomic (pin : pin_t) (w : World) : World :=
  setPinInputHigh pin w

/-- Read a row pin; a row without a pin reads high. -/
def readMatrixPin (level : pin_t → Bool) (pin : pin_t) (w : World) : Nat × World :=
  if pin ≠ pin_t.NO_PIN then readPin level pin w else (1, w)

/-- The body of the loop of `shiftOutMultiple`, run `n` more times. -/
def shiftOutMultiple_loop : Nat → Nat → World → World
  | 0, _, w => w
  | n + 1, dataOut, w =>
    let w1 := if dataOut &&& 0x1 ≠ 0 then setPinOutput_writeHigh DATA_PIN w
              else setPinOutput_writeLow DATA_PIN w
    let dataOut1 := dataOut >>> 1
    let w2 := setPinOutput_writeHigh CLOCK_PIN w1
    let w3 := setPinOutput_writeLow CLOCK_PIN w2
    shiftOutMultiple_loop n dataOut1 w3

/-- Shift out eight bits, least significant first, then pulse the latch. -/
def shiftOutMultiple (dataOut : Nat) (w : World) : World :=
  let w1 := shiftOutMultiple_loop 8 dataOut w
  let w2 := setPinOutput_writeHigh LATCH_PIN w1
  setPinOutput_writeLow LATCH_PIN w2

/-- Shift out the least significant bit, then pulse the latch. -/
def shiftOutSingle (dataOut : Nat) (w : World) : World :=
  let w1 := if dataOut &&& 0x1 ≠ 0 then setPinOutput_writeHigh DATA_PIN w
            else setPinOutput_writeLow DATA_PIN w
  let w2 := setPinOutput_writeHigh CLOCK_PIN w1
  let w3 := setPinOutput_writeLow CLOCK_PIN w2
  let w4 := setPinOutput_writeHigh LATCH_PIN w3
  setPinOutput_writeLow LATCH_PIN w4

/-- The result is `(return value, world)`; the trailing `return false` of the
source is unreachable. -/
def select_col (cfg : Config) (col : Nat) (w : World) : Bool × World :=
  let pin := cfg.col_pins col
  if pin = pin_t.NO_PIN then
    if col = 8 then (true, shiftOutSingle 0x0 w)
    else (true, shiftOutSingle 0x01 w)
  else (true, setPinOutput_writeLow pin w)

/-- Deselect one column. -/
def unselect_col (cfg : Config) (col : Nat) (w : World) : World :=
  let pin := cfg.col_pins col
  if pin = pin_t.NO_PIN then
    if col = 15 then shiftOutSingle 0x01 w else w
  else setPinInputHigh_atomic pin w

/-- Deselect every column in index order, then shift out `0xFF`. -/
def unselect_cols (cfg : Config) (fuel : Nat) (w : World) : Option World :=
  match forU8 cfg.MATRIX_COLS (fun x w1 => some (unselect_col cfg x w1)) fuel 0 w with
  | none => none
  | some w1 => some (shiftOutMultiple 0xFF w1)

/-- Deselect all columns, then configure every row pin as input with pull-up. -/
def matrix_init_pins (cfg : Config) (fuel : Nat) (w : World) : Option World :=
  match unselect_cols cfg fuel w with
  | none => none
  | some w1 =>
    forU8 cfg.MATRIX_ROWS
      (fun x w2 =>
        if cfg.row_pins x ≠ pin_t.NO_PIN then some (setPinInputHigh_atomic (cfg.row_pins x) w2)
        else some w2)
      fuel 0 w1

/-- The value `1` of type `matrix_row_t`. -/
def MATRIX_ROW_SHIFTER : matrix_row_t := 1

/-- The expression `MATRIX_ROW_SHIFTER << col`, as a `matrix_row_t`. -/
def col_mask (cfg : Config) (col : Nat) : matrix_row_t :=
  (MATRIX_ROW_SHIFTER <<< col) % 2 ^ cfg.ROW_BITS

/-- The assignment `row |= mask` on a `matrix_row_t`. -/
def row_or (cfg : Config) (row mask : matrix_row_t) : matrix_row_t :=
  (row ||| mask) % 2 ^ cfg.ROW_BITS

/-- The assignment `row &= ~mask` on a `matrix_row_t`. -/
def row_and_not (cfg : Config) (row mask : matrix_row_t) : matrix_row_t :=
  (row &&& (2 ^ cfg.ROW_BITS - 1 - mask % 2 ^ cfg.ROW_BITS)) % 2 ^ cfg.ROW_BITS

/-- The body of the row loop of `matrix_read_rows_on_col`, on the loop state
`(current_matrix, key_pressed, world)`. -/
def read_row (cfg : Config) (rd : Readings) (current_col row_index : Nat)
    (s : Matrix × Bool × World) : Matrix × Bool × World :=
  let r := readMatrixPin (rd current_col row_index) (cfg.row_pins row_index) s.2.2
  if r.1 = 0 then
    (Function.update s.1 row_index (row_or cfg (s.1 row_index) (col_mask cfg current_col)),
      true, r.2)
  else
    (Function.update s.1 row_index (row_and_not cfg (s.1 row_index) (col_mask cfg current_col)),
      s.2.1, r.2)

/-- The read cycle of one column; the result is `(current_matrix, world)`. -/
def matrix_read_rows_on_col (cfg : Config) (fuel : Nat) (rd : Readings)
    (current_matrix : Matrix) (current_col : Nat) (w : World) : Option (Matrix × World) :=
  let key_pressed := false
  let sel := select_col cfg current_col w
  if sel.1 = false then some (current_matrix, sel.2)
  else
    let w1 := matrix_output_select_delay sel.2
    match forU8 cfg.MATRIX_ROWS (fun row_index s => some (read_row cfg rd current_col row_index s))
        fuel 0 (current_matrix, key_pressed, w1) with
    | none => none
    | some s =>
      let w2 := unselect_col cfg current_col s.2.2
      some (s.1, matrix_output_unselect_delay current_col s.2.1 w2)

/-- Initialise the key pins. -/
def matrix_init_custom (cfg : Config) (fuel : Nat) (w : World) : Option World :=
  matrix_init_pins cfg fuel w

/-- The call `memcmp(a, b, n * sizeof(matrix_row_t))`: zero when the first `n`
rows agree, non-zero otherwise (the caller uses nothing else of the result). -/
def memcmp (a b : Matrix) (n : Nat) : Int :=
  if ∀ r, r < n → a r = b r then 0 else 1

/-- The call `memcpy(dst, src, n * sizeof(matrix_row_t))`: the content of
`dst` afterwards. -/
def memcpy (dst src : Matrix) (n : Nat) : Matrix :=
  fun r => if r < n then src r else dst r

/-- The first part of `matrix_scan_custom`: the zero-initialised working
snapshot `curr_matrix` after the column loop. -/
def scan_columns (cfg : Config) (fuel : Nat) (rd : Readings) (w : World) :
    Option (Matrix × World) :=
  let curr_matrix : Matrix := fun _ => 0
  forU8 cfg.MATRIX_COLS
    (fun current_col s => matrix_read_rows_on_col cfg fuel rd s.1 current_col s.2)
    fuel 0 (curr_matrix, w)

/-- The result is `(changed, current_matrix after the call, world)`. -/
def matrix_scan_custom (cfg : Config) (fuel : Nat) (rd : Readings)
    (current_matrix : Matrix) (w : World) : Option (Bool × Matrix × World) :=
  match scan_columns cfg fuel rd w with
  | none => none
  | some (curr_matrix, w1) =>
    let changed : Bool := decide (memcmp current_matrix curr_matrix cfg.MATRIX_ROWS ≠ 0)
    let current_matrix1 :=
      if changed then memcpy current_matrix curr_matrix cfg.MATRIX_ROWS else current_matrix
    some (changed, current_matrix1, w1)

/-! ## Device model -/

/-- The configuration of a GPIO pin. -/
inductive PinMode where
  | input_high
  | output
deriving DecidableEq, Repr

/-- Modelled from the spec: the state of the hardware, which is not part of
the source. `mode` is the direction of every GPIO pin and `level` the level its
line idles at or is driven to (`true` = high). `stage` and `latch` are the
8-bit shift stage and the latched parallel outputs `Q0..Q7` of the 74HC595
(`true` = high), index 0 being the bit shifted in last. -/
structure HW where
  mode : pin_t → PinMode
  level : pin_t → Bool
  stage : List Bool
  latch : List Bool

/-- Modelled from the spec: the effect of one primitive call on the hardware.
Configuring a pin as output keeps its level; configuring it as input with
pull-up lets its line idle high. Each clock pulse (the clock line driven high)
shifts the level of the data line into the shift stage; each latch pulse (the
latch line driven high) copies the shift stage to the outputs. Reads and delays
change nothing. -/
def HW.step (hw : HW) : Ev → HW
  | Ev.setPinOutput p =>
    { hw with mode := fun q => if q = p then PinMode.output else hw.mode q }
  | Ev.setPinInputHigh p =>
    { hw with mode := fun q => if q = p then PinMode.input_high else hw.mode q,
              level := fun q => if q = p then true else hw.level q }
  | Ev.writePinLow p =>
    { hw with level := fun q => if q = p then false else hw.level q }
  | Ev.writePinHigh p =>
    let level1 : pin_t → Bool := fun q => if q = p then true else hw.level q
    let stage1 := if p = CLOCK_PIN then (level1 DATA_PIN :: hw.stage).take 8 else hw.stage
    let latch1 := if p = LATCH_PIN then stage1 else hw.latch
    { hw with level := level1, stage := stage1, latch := latch1 }
  | Ev.readPin _ _ => hw
  | Ev.matrix_output_select_delay => hw
  | Ev.matrix_output_unselect_delay _ _ => hw

/-- The hardware after a sequence of primitive calls. -/
def HW.run (hw : HW) (tr : List Ev) : HW := tr.foldl HW.step hw

/-! ## Closed forms used to state and prove the properties -/

/-- Row `r` reads as pressed during the cycle of column `c`: it has a concrete
pin and that pin reads low. -/
def pressed (cfg : Config) (rd : Readings) (c r : Nat) : Bool :=
  decide (cfg.row_pins r ≠ pin_t.NO_PIN) && !rd c r (cfg.row_pins r)

/-- The primitive calls of one row read of column `c`. -/
def row_events (cfg : Config) (rd : Readings) (c r : Nat) : List Ev :=
  if cfg.row_pins r ≠ pin_t.NO_PIN then
    [Ev.readPin (cfg.row_pins r) (if rd c r (cfg.row_pins r) then 1 else 0)]
  else []

/-- All row reads of column `c`, rows in increasing order. -/
def reads_events (cfg : Config) (rd : Readings) (c : Nat) : List Ev :=
  (List.range cfg.MATRIX_ROWS).flatMap (row_events cfg rd c)

/-- The primitive calls of the select action of column `c`. -/
def select_events (cfg : Config) (c : Nat) : List Ev := (select_col cfg c []).2

/-- The primitive calls of the deselect action of column `c`. -/
def unselect_events (cfg : Config) (c : Nat) : List Ev := unselect_col cfg c []

/-- The primitive calls of the read cycle of column `c`: select, settle delay,
row reads, deselect, settle delay. -/
def col_events (cfg : Config) (rd : Readings) (c : Nat) : List Ev :=
  select_events cfg c ++ (Ev.matrix_output_select_delay :: reads_events cfg rd c) ++
    (unselect_events cfg c ++
      [Ev.matrix_output_unselect_delay c ((List.range cfg.MATRIX_ROWS).any (pressed cfg rd c))])

/-- The primitive calls of the column loop of one scan. -/
def scan_events (cfg : Config) (rd : Readings) : List Ev :=
  (List.range cfg.MATRIX_COLS).flatMap (col_events cfg rd)

/-- The working snapshot after the read cycle of column `c`. -/
def col_update (cfg : Config) (rd : Readings) (c : Nat) (m : Matrix) : Matrix :=
  fun r =>
    if r < cfg.MATRIX_ROWS then
      if pressed cfg rd c r then row_or cfg (m r) (col_mask cfg c)
      else row_and_not cfg (m r) (col_mask cfg c)
    else m r

/-- The working snapshot after the read cycles of columns `0 .. n-1`. -/
def snapshot_upto (cfg : Config) (rd : Readings) (n : Nat) : Matrix :=
  (List.range n).foldl (fun m c => col_update cfg rd c m) (fun _ => 0)

/-- The freshly scanned working snapshot of one scan. -/
def fresh_snapshot (cfg : Config) (rd : Readings) : Matrix :=
  snapshot_upto cfg rd cfg.MATRIX_COLS

/-- The primitive calls that shift one bit of level `v` into the register. -/
def bit_events (v : Bool) : List Ev :=
  [Ev.setPinOutput DATA_PIN, if v then Ev.writePinHigh DATA_PIN else Ev.writePinLow DATA_PIN,
   Ev.setPinOutput CLOCK_PIN, Ev.writePinHigh CLOCK_PIN,
   Ev.setPinOutput CLOCK_PIN, Ev.writePinLow CLOCK_PIN]

/-- The primitive calls of one latch pulse. -/
def latch_events : List Ev :=
  [Ev.setPinOutput LATCH_PIN, Ev.writePinHigh LATCH_PIN,
   Ev.setPinOutput LATCH_PIN, Ev.writePinLow LATCH_PIN]

/-- The primitive calls of `unselect_cols`. -/
def unselect_cols_events (cfg : Config) : List Ev :=
  (List.range cfg.MATRIX_COLS).flatMap (unselect_events cfg) ++ shiftOutMultiple 0xFF []

/-- The primitive calls of the row loop of `matrix_init_pins`. -/
def init_rows_events (cfg : Config) : List Ev :=
  (List.range cfg.MATRIX_ROWS).flatMap (fun x =>
    if cfg.row_pins x ≠ pin_t.NO_PIN then [Ev.setPinInputHigh (cfg.row_pins x)] else [])

/-- The primitive calls of `matrix_init_pins`. -/
def init_events (cfg : Config) : List Ev :=
  unselect_cols_events cfg ++ init_rows_events cfg

/-- Pin `q` is the concrete pin of one of the columns `0 .. n-1`. -/
def is_col_pin (cfg : Config) (n : Nat) (q : pin_t) : Bool :=
  (List.range n).any (fun c => decide (cfg.col_pins c = q) && decide (q ≠ pin_t.NO_PIN))

/-- The hardware after `unselect_cols`, started in state `hw`. -/
def after_unselect_cols (cfg : Config) (hw : HW) : HW where
  mode := fun q =>
    if q = LATCH_PIN then PinMode.output
    else if q = CLOCK_PIN then PinMode.output
    else if q = DATA_PIN then PinMode.output
    else if is_col_pin cfg cfg.MATRIX_COLS q then PinMode.input_high
    else hw.mode q
  level := fun q =>
    if q = LATCH_PIN then false
    else if q = CLOCK_PIN then false
    else if q = DATA_PIN then true
    else if is_col_pin cfg cfg.MATRIX_COLS q then true
    else hw.level q
  stage := List.replicate 8 true
  latch := List.replicate 8 true

/-- Property `P` holds at every moment while the primitive calls `tr` are
made from state `hw`: before the first call, between any two calls, and after
the last. -/
def HW.always (P : HW → Prop) (hw : HW) (tr : List Ev) : Prop :=
  ∀ n, P (hw.run (tr.take n))

/-- The register is untouched throughout the calls `tr`. -/
def Steady (hw : HW) (tr : List Ev) : Prop :=
  HW.always (fun h => h.latch = hw.latch ∧ h.stage = hw.stage) hw tr

/-- A 16-column layout as observed: columns 0..7 on concrete pins, columns
8..15 behind the shift register; 6 rows on concrete pins; 16-bit rows. -/
def layout16 : Config where
  MATRIX_ROWS := 6
  MATRIX_COLS := 16
  ROW_BITS := 16
  row_pins := fun r => pin_t.line 2 r
  col_pins := fun c => if c < 8 then pin_t.line 3 c else pin_t.NO_PIN

/-- The 18-column scenario: columns 8 and 15 are sentinels, every other
column is on a concrete pin; 6 rows on concrete pins; 32-bit rows. -/
def layout18 : Config where
  MATRIX_ROWS := 6
  MATRIX_COLS := 18
  ROW_BITS := 32
  row_pins := fun r => pin_t.line 2 r
  col_pins := fun c => if c = 8 ∨ c = 15 then pin_t.NO_PIN else pin_t.line 3 c

/-- Every row pin reads high at every moment: no key is pressed. -/
def all_released : Readings := fun _ _ _ => true

/-- The only low reading is row 2 during the cycle of column 8. -/
def key_2_8 : Readings := fun c r _ => !(decide (c = 8) && decide (r = 2))

/-- The all-zero snapshot. -/
def zero_matrix : Matrix := fun _ => 0

/-- The electrical state `key_2_8` before the key went down, at the same pin. -/
def before_key_2_8 : Readings := all_released

theorem forU8_total {σ : Type} (bound : Nat) (hb : bound ≤ 255)
    (body : Nat → σ → Option σ) (f : Nat → σ → σ)
    (hbody : ∀ x s, x < bound → body x s = some (f x s)) :
    ∀ (fuel x : Nat) (s : σ), x ≤ bound → bound - x < fuel →
      forU8 bound body fuel x s
        = some ((List.range' x (bound - x)).foldl (fun s1 x1 => f x1 s1) s) := by
  intro fuel
  induction fuel with
  | zero => intro x s _ h; omega
  | succ fuel ih =>
    intro x s hx hf
    unfold forU8
    by_cases hlt : x < bound
    · have hmod : (x + 1) % 256 = x + 1 := Nat.mod_eq_of_lt (by omega)
      have hsub : bound - x = (bound - (x + 1)) + 1 := by omega
      rw [if_pos hlt, hbody x s hlt]
      simp only [hmod]
      rw [ih (x + 1) (f x s) (by omega) (by omega), hsub, List.range'_succ]
      simp
    · have h0 : bound - x = 0 := by omega
      rw [if_neg hlt, h0]
      simp

theorem forU8_range {σ : Type} (bound : Nat) (hb : bound ≤ 255)
    (body : Nat → σ → Option σ) (f : Nat → σ → σ)
    (hbody : ∀ x s, x < bound → body x s = some (f x s))
    (fuel : Nat) (hf : bound < fuel) (s : σ) :
    forU8 bound body fuel 0 s = some ((List.range bound).foldl (fun s1 x1 => f x1 s1) s) := by
  rw [forU8_total bound hb body f hbody fuel 0 s (Nat.zero_le _) (by omega)]
  simp [List.range_eq_range']

/-! ### Every function appends its primitive calls to the log -/

theorem shiftOutSingle_log (d : Nat) (w : World) :
    shiftOutSingle d w = w ++ shiftOutSingle d [] := by
  simp only [shiftOutSingle, setPinOutput_writeHigh, setPinOutput_writeLow, writePinHigh,
    writePinLow, setPinOutput]
  split <;> simp

theorem select_col_log (cfg : Config) (c : Nat) (w : World) :
    select_col cfg c w = (true, w ++ select_events cfg c) := by
  unfold select_events select_col
  by_cases hp : cfg.col_pins c = pin_t.NO_PIN
  · simp only [hp, if_true]
    split
    · rw [shiftOutSingle_log]
    · rw [shiftOutSingle_log]
  · simp [hp, setPinOutput_writeLow, writePinLow, setPinOutput]

theorem unselect_col_log (cfg : Config) (c : Nat) (w : World) :
    unselect_col cfg c w = w ++ unselect_events cfg c := by
  unfold unselect_events unselect_col
  by_cases hp : cfg.col_pins c = pin_t.NO_PIN
  · simp only [hp, if_true]
    split
    · rw [shiftOutSingle_log]
    · simp
  · simp [hp, setPinInputHigh_atomic, setPinInputHigh]

theorem read_row_eq (cfg : Config) (rd : Readings) (c r : Nat) (s : Matrix × Bool × World) :
    read_row cfg rd c r s
      = (Function.update s.1 r
            (if pressed cfg rd c r then row_or cfg (s.1 r) (col_mask cfg c)
             else row_and_not cfg (s.1 r) (col_mask cfg c)),
          s.2.1 || pressed cfg rd c r,
          s.2.2 ++ row_events cfg rd c r) := by
  unfold read_row readMatrixPin readPin pressed row_events
  by_cases hp : cfg.row_pins r = pin_t.NO_PIN
  · simp [hp]
  · by_cases hl : rd c r (cfg.row_pins r) = true
    · simp [hp, hl]
    · simp [hp, hl]

/-- The row loop of one column, in closed form. -/
theorem rows_fold (cfg : Config) (rd : Readings) (c : Nat) (m : Matrix) (kp : Bool)
    (w : World) (n : Nat) :
    (List.range n).foldl (fun s r => read_row cfg rd c r s) (m, kp, w)
      = ((fun r => if r < n then
            (if pressed cfg rd c r then row_or cfg (m r) (col_mask cfg c)
             else row_and_not cfg (m r) (col_mask cfg c))
          else m r),
         kp || (List.range n).any (pressed cfg rd c),
         w ++ (List.range n).flatMap (row_events cfg rd c)) := by
  induction n with
  | zero => simp
  | succ n ih =>
    rw [List.range_succ, List.foldl_append, ih]
    simp only [List.foldl_cons, List.foldl_nil, read_row_eq, List.any_append,
      List.flatMap_append, List.any_cons, List.any_nil, Bool.or_false, List.flatMap_cons,
      List.flatMap_nil, List.append_nil, List.append_assoc, Bool.or_assoc]
    refine Prod.ext ?_ rfl
    funext r
    by_cases hr : r = n
    · subst hr
      simp
    · have h1 : (r < n + 1) = (r < n) := by
        apply propext
        omega
      simp [Function.update, hr, h1]

/-- One column read cycle returns, and its result in closed form. -/
theorem matrix_read_rows_on_col_eq (cfg : Config) (hr : cfg.MATRIX_ROWS ≤ 255)
    (fuel : Nat) (hf : cfg.MATRIX_ROWS < fuel) (rd : Readings) (m : Matrix) (c : Nat)
    (w : World) :
    matrix_read_rows_on_col cfg fuel rd m c w
      = some (col_update cfg rd c m, w ++ col_events cfg rd c) := by
  unfold matrix_read_rows_on_col
  simp only [select_col_log]
  rw [forU8_range cfg.MATRIX_ROWS hr _ (fun r s => read_row cfg rd c r s)
    (fun _ _ _ => rfl) fuel hf, rows_fold]
  simp [unselect_col_log, matrix_output_unselect_delay, matrix_output_select_delay,
    col_events, reads_events]
  rfl

theorem cols_fold (cfg : Config) (rd : Readings) (m : Matrix) (w : World) (n : Nat) :
    (List.range n).foldl
        (fun (s : Matrix × World) c => (col_update cfg rd c s.1, s.2 ++ col_events cfg rd c))
        (m, w)
      = ((List.range n).foldl (fun m1 c => col_update cfg rd c m1) m,
         w ++ (List.range n).flatMap (col_events cfg rd)) := by
  induction n with
  | zero => simp
  | succ n ih =>
    rw [List.range_succ, List.foldl_append, ih]
    simp [List.foldl_append, List.flatMap_append]

/-- The column loop of a scan returns, and its result in closed form. -/
theorem scan_columns_eq (cfg : Config) (hr : cfg.MATRIX_ROWS ≤ 255)
    (hc : cfg.MATRIX_COLS ≤ 255) (fuel : Nat) (hfr : cfg.MATRIX_ROWS < fuel)
    (hfc : cfg.MATRIX_COLS < fuel) (rd : Readings) (w : World) :
    scan_columns cfg fuel rd w = some (fresh_snapshot cfg rd, w ++ scan_events cfg rd) := by
  unfold scan_columns
  rw [forU8_range cfg.MATRIX_COLS hc _
    (fun c (s : Matrix × World) => (col_update cfg rd c s.1, s.2 ++ col_events cfg rd c))
    (fun c s _ => matrix_read_rows_on_col_eq cfg hr fuel hfr rd s.1 c s.2) fuel hfc, cols_fold]
  rfl

/-- A whole scan returns, and its result in closed form. -/
theorem matrix_scan_custom_eq (cfg : Config) (hr : cfg.MATRIX_ROWS ≤ 255)
    (hc : cfg.MATRIX_COLS ≤ 255) (fuel : Nat) (hfr : cfg.MATRIX_ROWS < fuel)
    (hfc : cfg.MATRIX_COLS < fuel) (rd : Readings) (p : Matrix) (w : World) :
    matrix_scan_custom cfg fuel rd p w
      = some (decide (memcmp p (fresh_snapshot cfg rd) cfg.MATRIX_ROWS ≠ 0),
          (if decide (memcmp p (fresh_snapshot cfg rd) cfg.MATRIX_ROWS ≠ 0) = true then
            memcpy p (fresh_snapshot cfg rd) cfg.MATRIX_ROWS else p),
          w ++ scan_events cfg rd) := by
  unfold matrix_scan_custom
  rw [scan_columns_eq cfg hr hc fuel hfr hfc rd w]

theorem memcmp_ne_zero_iff (a b : Matrix) (n : Nat) :
    memcmp a b n ≠ 0 ↔ ∃ r, r < n ∧ a r ≠ b r := by
  unfold memcmp
  by_cases h : ∀ r, r < n → a r = b r
  · rw [if_pos h]
    constructor
    · intro h0
      exact absurd rfl h0
    · rintro ⟨r, hr, hne⟩
      exact absurd (h r hr) hne
  · rw [if_neg h]
    push_neg at h
    simpa using h

/-! ### Bits of the working snapshot -/

theorem testBit_col_mask (cfg : Config) (c i : Nat) :
    (col_mask cfg c).testBit i = (decide (i < cfg.ROW_BITS) && decide (c = i)) := by
  unfold col_mask MATRIX_ROW_SHIFTER
  rw [Nat.testBit_mod_two_pow, Nat.one_shiftLeft, Nat.testBit_two_pow]

theorem testBit_row_or (cfg : Config) (a m i : Nat) :
    (row_or cfg a m).testBit i = (decide (i < cfg.ROW_BITS) && (a.testBit i || m.testBit i)) := by
  unfold row_or
  rw [Nat.testBit_mod_two_pow, Nat.testBit_or]

theorem testBit_row_and_not (cfg : Config) (a m i : Nat) :
    (row_and_not cfg a m).testBit i
      = (decide (i < cfg.ROW_BITS) && (a.testBit i && !m.testBit i)) := by
  unfold row_and_not
  have hlt : m % 2 ^ cfg.ROW_BITS < 2 ^ cfg.ROW_BITS := Nat.mod_lt _ (by positivity)
  rw [Nat.testBit_mod_two_pow, Nat.testBit_and, Nat.sub_sub, Nat.add_comm 1,
    Nat.testBit_two_pow_sub_succ hlt, Nat.testBit_mod_two_pow]
  by_cases h : i < cfg.ROW_BITS <;> simp [h]

theorem snapshot_upto_succ (cfg : Config) (rd : Readings) (n : Nat) :
    snapshot_upto cfg rd (n + 1) = col_update cfg rd n (snapshot_upto cfg rd n) := by
  unfold snapshot_upto
  rw [List.range_succ, List.foldl_append]
  rfl

/-- Bit `i` of row `r` of the working snapshot after columns `0 .. n-1`. -/
theorem testBit_snapshot_upto (cfg : Config) (rd : Readings) (n : Nat)
    (hn : n ≤ cfg.ROW_BITS) (r i : Nat) :
    (snapshot_upto cfg rd n r).testBit i
      = (decide (r < cfg.MATRIX_ROWS) && (decide (i < n) && pressed cfg rd i r)) := by
  induction n with
  | zero => simp [snapshot_upto]
  | succ n ih =>
    have ih1 := ih (by omega)
    rw [snapshot_upto_succ]
    unfold col_update
    by_cases hr : r < cfg.MATRIX_ROWS
    · simp only [hr, if_true, decide_True, Bool.true_and] at ih1 ⊢
      by_cases hp : pressed cfg rd n r = true
      · rw [if_pos hp, testBit_row_or, testBit_col_mask, ih1]
        rcases Nat.lt_trichotomy i n with h | h | h
        · have h1 : i < n + 1 := by omega
          have h2 : i < cfg.ROW_BITS := by omega
          have h3 : n ≠ i := by omega
          simp [h, h1, h2, h3]
        · subst h
          have h2 : i < cfg.ROW_BITS := by omega
          simp [h2, hp]
        · have h1 : ¬ i < n + 1 := by omega
          have h2 : ¬ i < n := by omega
          have h3 : n ≠ i := by omega
          simp [h1, h2, h3]
      · rw [if_neg hp, testBit_row_and_not, testBit_col_mask, ih1]
        rcases Nat.lt_trichotomy i n with h | h | h
        · have h1 : i < n + 1 := by omega
          have h2 : i < cfg.ROW_BITS := by omega
          have h3 : n ≠ i := by omega
          simp [h, h1, h2, h3]
        · subst h
          have h2 : i < cfg.ROW_BITS := by omega
          simp at hp
          simp [h2, hp]
        · have h1 : ¬ i < n + 1 := by omega
          have h2 : ¬ i < n := by omega
          have h3 : n ≠ i := by omega
          simp [h1, h2, h3]
    · simp only [hr, if_false, decide_False, Bool.false_and] at ih1 ⊢
      exact ih1

/-- Bit `i` of row `r` of the freshly scanned snapshot. -/
theorem testBit_fresh_snapshot (cfg : Config) (rd : Readings)
    (hw : cfg.MATRIX_COLS ≤ cfg.ROW_BITS) (r i : Nat) :
    (fresh_snapshot cfg rd r).testBit i
      = (decide (r < cfg.MATRIX_ROWS) && (decide (i < cfg.MATRIX_COLS) && pressed cfg rd i r)) :=
  testBit_snapshot_upto cfg rd cfg.MATRIX_COLS hw r i

/-! ### The scan contract -/

/-- What one scan returns, in terms of the closed forms. -/
theorem scan_spec (cfg : Config) (hr : cfg.MATRIX_ROWS ≤ 255)
    (hc : cfg.MATRIX_COLS ≤ 255) (fuel : Nat) (hfr : cfg.MATRIX_ROWS < fuel)
    (hfc : cfg.MATRIX_COLS < fuel) (rd : Readings) (p : Matrix) (w : World) :
    ∃ changed p1,
      matrix_scan_custom cfg fuel rd p w = some (changed, p1, w ++ scan_events cfg rd) ∧
      (changed = true ↔ ∃ r, r < cfg.MATRIX_ROWS ∧ fresh_snapshot cfg rd r ≠ p r) ∧
      (∀ r, r < cfg.MATRIX_ROWS → p1 r = fresh_snapshot cfg rd r) ∧
      (∀ r, cfg.MATRIX_ROWS ≤ r → p1 r = p r) ∧
      (changed = false → p1 = p) := by
  refine ⟨_, _, matrix_scan_custom_eq cfg hr hc fuel hfr hfc rd p w, ?_, ?_, ?_, ?_⟩
  · rw [decide_eq_true_iff, memcmp_ne_zero_iff]
    constructor
    · rintro ⟨r, h1, h2⟩
      exact ⟨r, h1, fun h => h2 h.symm⟩
    · rintro ⟨r, h1, h2⟩
      exact ⟨r, h1, fun h => h2 h.symm⟩
  · intro r hlt
    by_cases hch : memcmp p (fresh_snapshot cfg rd) cfg.MATRIX_ROWS ≠ 0
    · simp [hch, memcpy, hlt]
    · have hall : ¬ ∃ r, r < cfg.MATRIX_ROWS ∧ p r ≠ fresh_snapshot cfg rd r :=
        fun h => hch ((memcmp_ne_zero_iff _ _ _).2 h)
      push_neg at hall
      simp only [hch, decide_False, Bool.false_eq_true, if_false]
      exact hall r hlt
  · intro r hge
    have hnlt : ¬ r < cfg.MATRIX_ROWS := by omega
    by_cases hch : memcmp p (fresh_snapshot cfg rd) cfg.MATRIX_ROWS ≠ 0
    · simp [hch, memcpy, hnlt]
    · simp [hch]
  · intro hfalse
    rw [hfalse]
    simp

theorem pressed_iff (cfg : Config) (rd : Readings) (c r : Nat) :
    pressed cfg rd c r = true
      ↔ cfg.row_pins r ≠ pin_t.NO_PIN ∧ rd c r (cfg.row_pins r) = false := by
  unfold pressed
  simp

/-- C1: the scan returns; it reports `true` exactly when the freshly scanned
working snapshot differs from the persisted snapshot in some row; afterwards
the persisted snapshot equals the fresh one on every row (memory beyond the
rows is untouched), and when the scan reports `false` the persisted snapshot is
exactly what it was. -/
theorem C1_scan_reports_change (cfg : Config) (hr : cfg.MATRIX_ROWS ≤ 255)
    (hc : cfg.MATRIX_COLS ≤ 255) (fuel : Nat) (hfr : cfg.MATRIX_ROWS < fuel)
    (hfc : cfg.MATRIX_COLS < fuel) (rd : Readings) (persisted : Matrix) (w : World) :
    ∃ fresh w1, scan_columns cfg fuel rd w = some (fresh, w1) ∧
      ∃ changed persisted1,
        matrix_scan_custom cfg fuel rd persisted w = some (changed, persisted1, w1) ∧
        (changed = true ↔ ∃ r, r < cfg.MATRIX_ROWS ∧ fresh r ≠ persisted r) ∧
        (∀ r, r < cfg.MATRIX_ROWS → persisted1 r = fresh r) ∧
        (∀ r, cfg.MATRIX_ROWS ≤ r → persisted1 r = persisted r) ∧
        (changed = false → persisted1 = persisted) := by
  obtain ⟨changed, p1, h⟩ := scan_spec cfg hr hc fuel hfr hfc rd persisted w
  exact ⟨_, _, scan_columns_eq cfg hr hc fuel hfr hfc rd w, changed, p1, h⟩

/-- Witness of C1 on the 16-column layout, one key pressed, from the all-zero snapshot. -/
theorem C1_scan_reports_change_witness :
    (layout16.MATRIX_ROWS ≤ 255 ∧ layout16.MATRIX_COLS ≤ 255 ∧
      layout16.MATRIX_ROWS < 256 ∧ layout16.MATRIX_COLS < 256) ∧
    ∃ fresh w1, scan_columns layout16 256 key_2_8 [] = some (fresh, w1) ∧
      ∃ changed persisted1,
        matrix_scan_custom layout16 256 key_2_8 zero_matrix [] = some (changed, persisted1, w1) ∧
        (changed = true ↔ ∃ r, r < layout16.MATRIX_ROWS ∧ fresh r ≠ zero_matrix r) ∧
        (∀ r, r < layout16.MATRIX_ROWS → persisted1 r = fresh r) ∧
        (∀ r, layout16.MATRIX_ROWS ≤ r → persisted1 r = zero_matrix r) ∧
        (changed = false → persisted1 = zero_matrix) :=
  ⟨by decide,
    C1_scan_reports_change layout16 (by decide) (by decide) 256 (by decide) (by decide)
      key_2_8 zero_matrix []⟩

/-- C2: after one scan, bit `c` of row `r` of the snapshot is set exactly when
row `r` has a concrete pin and that pin read low during the cycle of column
`c`; a row whose table entry is the sentinel is all zero; no bit at a position
at or beyond `MATRIX_COLS` is set. In particular, when the only low reading is
row 2 during column 8, row 2 is exactly bit 8 and every other row is zero. -/
theorem C2_snapshot_bits (cfg : Config) (hr : cfg.MATRIX_ROWS ≤ 255)
    (hc : cfg.MATRIX_COLS ≤ 255) (hw : cfg.MATRIX_COLS ≤ cfg.ROW_BITS) (fuel : Nat)
    (hfr : cfg.MATRIX_ROWS < fuel) (hfc : cfg.MATRIX_COLS < fuel) (rd : Readings)
    (persisted : Matrix) (w : World) :
    ∃ changed snap w1,
      matrix_scan_custom cfg fuel rd persisted w = some (changed, snap, w1) ∧
      (∀ r c, r < cfg.MATRIX_ROWS → c < cfg.MATRIX_COLS →
        ((snap r).testBit c = true
          ↔ cfg.row_pins r ≠ pin_t.NO_PIN ∧ rd c r (cfg.row_pins r) = false)) ∧
      (∀ r, r < cfg.MATRIX_ROWS → cfg.row_pins r = pin_t.NO_PIN → snap r = 0) ∧
      (∀ r i, r < cfg.MATRIX_ROWS → cfg.MATRIX_COLS ≤ i → (snap r).testBit i = false) ∧
      ((2 < cfg.MATRIX_ROWS ∧ 8 < cfg.MATRIX_COLS ∧
          ∀ r c, r < cfg.MATRIX_ROWS → c < cfg.MATRIX_COLS →
            ((cfg.row_pins r ≠ pin_t.NO_PIN ∧ rd c r (cfg.row_pins r) = false)
              ↔ (r = 2 ∧ c = 8))) →
        snap 2 = 2 ^ 8 ∧ ∀ r, r < cfg.MATRIX_ROWS → r ≠ 2 → snap r = 0) := by
  obtain ⟨changed, p1, hres, _, hfresh, _, _⟩ :=
    scan_spec cfg hr hc fuel hfr hfc rd persisted w
  refine ⟨changed, p1, _, hres, ?_, ?_, ?_, ?_⟩
  · intro r c hlt hclt
    rw [hfresh r hlt, testBit_fresh_snapshot cfg rd hw, ← pressed_iff]
    simp [hlt, hclt]
  · intro r hlt hpin
    rw [hfresh r hlt]
    apply Nat.eq_of_testBit_eq
    intro i
    rw [testBit_fresh_snapshot cfg rd hw]
    simp [pressed, hpin]
  · intro r i hlt hge
    have hnlt : ¬ i < cfg.MATRIX_COLS := by omega
    rw [hfresh r hlt, testBit_fresh_snapshot cfg rd hw]
    simp [hnlt]
  · rintro ⟨h2, h8, honly⟩
    constructor
    · rw [hfresh 2 h2]
      apply Nat.eq_of_testBit_eq
      intro i
      rw [testBit_fresh_snapshot cfg rd hw, Nat.testBit_two_pow]
      by_cases hi : i < cfg.MATRIX_COLS
      · by_cases h8i : 8 = i
        · subst h8i
          have hp : pressed cfg rd 8 2 = true :=
            (pressed_iff cfg rd 8 2).2 ((honly 2 8 h2 h8).2 ⟨rfl, rfl⟩)
          simp [h2, h8, hp]
        · have hp : ¬ pressed cfg rd i 2 = true := fun hp =>
            h8i ((honly 2 i h2 hi).1 ((pressed_iff cfg rd i 2).1 hp)).2.symm
          simp [h8i, hp]
      · have h8i : ¬ 8 = i := by omega
        simp [hi, h8i]
    · intro r hlt hne
      rw [hfresh r hlt]
      apply Nat.eq_of_testBit_eq
      intro i
      rw [testBit_fresh_snapshot cfg rd hw]
      by_cases hi : i < cfg.MATRIX_COLS
      · have hp : ¬ pressed cfg rd i r = true := fun hp =>
          hne ((honly r i hlt hi).1 ((pressed_iff cfg rd i r).1 hp)).1
        simp [hp]
      · simp [hi]

/-- Witness of C2 on the 18-column scenario with the key at row 2, column 8 pressed. -/
theorem C2_snapshot_bits_witness :
    (layout18.MATRIX_ROWS ≤ 255 ∧ layout18.MATRIX_COLS ≤ 255 ∧
      layout18.MATRIX_COLS ≤ layout18.ROW_BITS ∧
      layout18.MATRIX_ROWS < 256 ∧ layout18.MATRIX_COLS < 256) ∧
    ∃ changed snap w1,
      matrix_scan_custom layout18 256 key_2_8 zero_matrix [] = some (changed, snap, w1) ∧
      (∀ r c, r < layout18.MATRIX_ROWS → c < layout18.MATRIX_COLS →
        ((snap r).testBit c = true
          ↔ layout18.row_pins r ≠ pin_t.NO_PIN ∧ key_2_8 c r (layout18.row_pins r) = false)) ∧
      (∀ r, r < layout18.MATRIX_ROWS → layout18.row_pins r = pin_t.NO_PIN → snap r = 0) ∧
      (∀ r i, r < layout18.MATRIX_ROWS → layout18.MATRIX_COLS ≤ i →
        (snap r).testBit i = false) ∧
      ((2 < layout18.MATRIX_ROWS ∧ 8 < layout18.MATRIX_COLS ∧
          ∀ r c, r < layout18.MATRIX_ROWS → c < layout18.MATRIX_COLS →
            ((layout18.row_pins r ≠ pin_t.NO_PIN ∧ key_2_8 c r (layout18.row_pins r) = false)
              ↔ (r = 2 ∧ c = 8))) →
        snap 2 = 2 ^ 8 ∧ ∀ r, r < layout18.MATRIX_ROWS → r ≠ 2 → snap r = 0) :=
  ⟨by decide,
    C2_snapshot_bits layout18 (by decide) (by decide) (by decide) 256 (by decide) (by decide)
      key_2_8 zero_matrix []⟩

/-- C3: two scans in a row on the same persisted snapshot under the same
electrical state: both return, and the second reports `false` and leaves the
persisted snapshot untouched. -/
theorem C3_second_scan_unchanged (cfg : Config) (hr : cfg.MATRIX_ROWS ≤ 255)
    (hc : cfg.MATRIX_COLS ≤ 255) (fuel : Nat) (hfr : cfg.MATRIX_ROWS < fuel)
    (hfc : cfg.MATRIX_COLS < fuel) (rd : Readings) (persisted : Matrix) (w : World) :
    ∃ changed1 persisted1 w1,
      matrix_scan_custom cfg fuel rd persisted w = some (changed1, persisted1, w1) ∧
      ∃ w2, matrix_scan_custom cfg fuel rd persisted1 w1 = some (false, persisted1, w2) := by
  obtain ⟨changed1, p1, hres1, _, hfresh1, _, _⟩ :=
    scan_spec cfg hr hc fuel hfr hfc rd persisted w
  obtain ⟨changed2, p2, hres2, hiff2, _, _, hsame2⟩ :=
    scan_spec cfg hr hc fuel hfr hfc rd p1 (w ++ scan_events cfg rd)
  have hch : changed2 = false := by
    cases hc2 : changed2 with
    | false => rfl
    | true =>
      obtain ⟨r, hlt, hne⟩ := hiff2.1 hc2
      exact absurd (hfresh1 r hlt).symm hne
  refine ⟨changed1, p1, _, hres1, w ++ scan_events cfg rd ++ scan_events cfg rd, ?_⟩
  rw [hres2, hch, hsame2 hch]

/-- Witness of C3 on the 16-column layout with one key held down. -/
theorem C3_second_scan_unchanged_witness :
    (layout16.MATRIX_ROWS ≤ 255 ∧ layout16.MATRIX_COLS ≤ 255 ∧
      layout16.MATRIX_ROWS < 256 ∧ layout16.MATRIX_COLS < 256) ∧
    ∃ changed1 persisted1 w1,
      matrix_scan_custom layout16 256 key_2_8 zero_matrix [] = some (changed1, persisted1, w1) ∧
      ∃ w2, matrix_scan_custom layout16 256 key_2_8 persisted1 w1 = some (false, persisted1, w2) :=
  ⟨by decide,
    C3_second_scan_unchanged layout16 (by decide) (by decide) 256 (by decide) (by decide)
      key_2_8 zero_matrix []⟩

/-- Rows of the fresh snapshot depend only on which keys of that row read pressed. -/
theorem fresh_snapshot_congr (cfg : Config) (hw : cfg.MATRIX_COLS ≤ cfg.ROW_BITS)
    (rd1 rd2 : Readings) (r : Nat)
    (h : ∀ i, i < cfg.MATRIX_COLS → pressed cfg rd1 i r = pressed cfg rd2 i r) :
    fresh_snapshot cfg rd1 r = fresh_snapshot cfg rd2 r := by
  apply Nat.eq_of_testBit_eq
  intro i
  rw [testBit_fresh_snapshot cfg rd1 hw, testBit_fresh_snapshot cfg rd2 hw]
  by_cases hi : i < cfg.MATRIX_COLS
  · rw [h i hi]
  · simp [hi]

/-- C4: two scans in a row whose readings agree everywhere except at one
pair `(c, r)`, released in the first and pressed in the second: both return,
the second reports `true`, and the persisted snapshot afterwards is the one
after the first scan with bit `c` of row `r` additionally set (it was clear) and
every other bit of every row the same. -/
theorem C4_one_key_pressed (cfg : Config) (hr : cfg.MATRIX_ROWS ≤ 255)
    (hc : cfg.MATRIX_COLS ≤ 255) (hw : cfg.MATRIX_COLS ≤ cfg.ROW_BITS) (fuel : Nat)
    (hfr : cfg.MATRIX_ROWS < fuel) (hfc : cfg.MATRIX_COLS < fuel)
    (rd1 rd2 : Readings) (c r : Nat) (hcl : c < cfg.MATRIX_COLS) (hrl : r < cfg.MATRIX_ROWS)
    (hpin : cfg.row_pins r ≠ pin_t.NO_PIN)
    (hhigh : rd1 c r (cfg.row_pins r) = true) (hlow : rd2 c r (cfg.row_pins r) = false)
    (hagree : ∀ c1 r1, c1 < cfg.MATRIX_COLS → r1 < cfg.MATRIX_ROWS → (c1 ≠ c ∨ r1 ≠ r) →
      rd1 c1 r1 (cfg.row_pins r1) = rd2 c1 r1 (cfg.row_pins r1))
    (persisted : Matrix) (w : World) :
    ∃ changed1 persisted1 w1,
      matrix_scan_custom cfg fuel rd1 persisted w = some (changed1, persisted1, w1) ∧
      ∃ persisted2 w2,
        matrix_scan_custom cfg fuel rd2 persisted1 w1 = some (true, persisted2, w2) ∧
        (persisted1 r).testBit c = false ∧
        (∀ i, (persisted2 r).testBit i = (decide (i = c) || (persisted1 r).testBit i)) ∧
        (∀ r1, r1 ≠ r → persisted2 r1 = persisted1 r1) := by
  obtain ⟨changed1, p1, hres1, _, hfresh1, _, _⟩ :=
    scan_spec cfg hr hc fuel hfr hfc rd1 persisted w
  obtain ⟨changed2, p2, hres2, hiff2, hfresh2, hrest2, _⟩ :=
    scan_spec cfg hr hc fuel hfr hfc rd2 p1 (w ++ scan_events cfg rd1)
  have hp1 : pressed cfg rd1 c r = false := by simp [pressed, hhigh]
  have hp2 : pressed cfg rd2 c r = true := by simp [pressed, hlow, hpin]
  have hsame : ∀ c1 r1, c1 < cfg.MATRIX_COLS → r1 < cfg.MATRIX_ROWS → (c1 ≠ c ∨ r1 ≠ r) →
      pressed cfg rd1 c1 r1 = pressed cfg rd2 c1 r1 := by
    intro c1 r1 h1 h2 h3
    unfold pressed
    rw [hagree c1 r1 h1 h2 h3]
  have hbit1 : (p1 r).testBit c = false := by
    rw [hfresh1 r hrl, testBit_fresh_snapshot cfg rd1 hw, hp1]
    simp
  have hbit2 : (fresh_snapshot cfg rd2 r).testBit c = true := by
    rw [testBit_fresh_snapshot cfg rd2 hw, hp2]
    simp [hrl, hcl]
  have hch : changed2 = true := by
    apply hiff2.2
    refine ⟨r, hrl, fun heq => ?_⟩
    rw [heq, hbit1] at hbit2
    exact Bool.false_ne_true hbit2
  refine ⟨changed1, p1, _, hres1, p2, w ++ scan_events cfg rd1 ++ scan_events cfg rd2,
    ?_, hbit1, ?_, ?_⟩
  · rw [hres2, hch]
  · intro i
    rw [hfresh2 r hrl, hfresh1 r hrl, testBit_fresh_snapshot cfg rd2 hw,
      testBit_fresh_snapshot cfg rd1 hw]
    by_cases hic : i = c
    · subst hic
      simp [hrl, hcl, hp2]
    · by_cases hi : i < cfg.MATRIX_COLS
      · rw [hsame i r hi hrl (Or.inl hic)]
        simp [hic]
      · simp [hi, hic]
  · intro r1 hne
    by_cases hlt : r1 < cfg.MATRIX_ROWS
    · rw [hfresh2 r1 hlt, hfresh1 r1 hlt]
      exact (fresh_snapshot_congr cfg hw rd1 rd2 r1
        (fun i hi => hsame i r1 hi hlt (Or.inr hne))).symm
    · exact hrest2 r1 (by omega)

/-- Witness of C4 on the 16-column layout: the key at row 2, column 8 goes down. -/
theorem C4_one_key_pressed_witness :
    (layout16.MATRIX_ROWS ≤ 255 ∧ layout16.MATRIX_COLS ≤ 255 ∧
      layout16.MATRIX_COLS ≤ layout16.ROW_BITS ∧
      layout16.MATRIX_ROWS < 256 ∧ layout16.MATRIX_COLS < 256 ∧
      8 < layout16.MATRIX_COLS ∧ 2 < layout16.MATRIX_ROWS ∧
      layout16.row_pins 2 ≠ pin_t.NO_PIN ∧
      before_key_2_8 8 2 (layout16.row_pins 2) = true ∧
      key_2_8 8 2 (layout16.row_pins 2) = false) ∧
    ∃ changed1 persisted1 w1,
      matrix_scan_custom layout16 256 before_key_2_8 zero_matrix []
        = some (changed1, persisted1, w1) ∧
      ∃ persisted2 w2,
        matrix_scan_custom layout16 256 key_2_8 persisted1 w1 = some (true, persisted2, w2) ∧
        (persisted1 2).testBit 8 = false ∧
        (∀ i, (persisted2 2).testBit i = (decide (i = 8) || (persisted1 2).testBit i)) ∧
        (∀ r1, r1 ≠ 2 → persisted2 r1 = persisted1 r1) :=
  ⟨by decide,
    C4_one_key_pressed layout16 (by decide) (by decide) (by decide) 256 (by decide) (by decide)
      before_key_2_8 key_2_8 8 2 (by decide) (by decide) (by decide) (by decide) (by decide)
      (by
        intro c1 r1 _ _ h
        have h2 : ¬ (c1 = 8 ∧ r1 = 2) := fun hh => h.elim (fun a => a hh.1) (fun a => a hh.2)
        simp only [before_key_2_8, all_released, key_2_8]
        by_cases h8 : c1 = 8
        · have hr2 : ¬ r1 = 2 := fun hh => h2 ⟨h8, hh⟩
          simp [hr2]
        · simp [h8])
      zero_matrix []⟩

/-- C7, counterexample: on the 16-column layout column 8 is a sentinel column,
and with row 2 reading low during the cycle of column 8 the scan sets bit 8 of
row 2: the column is neither skipped nor read as not-pressed. -/
theorem C7_sentinel_column_counterexample :
    layout16.col_pins 8 = pin_t.NO_PIN ∧
    ∃ changed snap w1,
      matrix_scan_custom layout16 256 key_2_8 zero_matrix [] = some (changed, snap, w1) ∧
      (snap 2).testBit 8 = true := by
  refine ⟨by decide, ?_⟩
  obtain ⟨changed, p1, hres, _, hfresh, _, _⟩ :=
    scan_spec layout16 (by decide) (by decide) 256 (by decide) (by decide) key_2_8
      zero_matrix []
  refine ⟨changed, p1, _, hres, ?_⟩
  rw [hfresh 2 (by decide), testBit_fresh_snapshot layout16 key_2_8 (by decide)]
  decide

/-- C7, amended: a column `c` whose table entry is the sentinel is not
skipped. Its select action shifts one bit into the register and reports
success; its read cycle returns and performs
the row read of every row that has a concrete pin; and after a scan bit `c` of
row `r` is set exactly when row `r` has a concrete pin that read low during the
cycle of column `c` (so the bit is clear in every row exactly when no such row
read low). -/
theorem C7_sentinel_column_is_scanned (cfg : Config) (hr : cfg.MATRIX_ROWS ≤ 255)
    (hc : cfg.MATRIX_COLS ≤ 255) (hw : cfg.MATRIX_COLS ≤ cfg.ROW_BITS) (fuel : Nat)
    (hfr : cfg.MATRIX_ROWS < fuel) (hfc : cfg.MATRIX_COLS < fuel) (rd : Readings)
    (c : Nat) (hcl : c < cfg.MATRIX_COLS) (hs : cfg.col_pins c = pin_t.NO_PIN)
    (persisted : Matrix) (w : World) :
    select_col cfg c w = (true, shiftOutSingle (if c = 8 then 0x0 else 0x01) w) ∧
    (∀ m w0, ∃ m1 evs, matrix_read_rows_on_col cfg fuel rd m c w0 = some (m1, w0 ++ evs) ∧
      ∀ r, r < cfg.MATRIX_ROWS → cfg.row_pins r ≠ pin_t.NO_PIN →
        Ev.readPin (cfg.row_pins r) (if rd c r (cfg.row_pins r) then 1 else 0) ∈ evs) ∧
    ∃ changed snap w1,
      matrix_scan_custom cfg fuel rd persisted w = some (changed, snap, w1) ∧
      ∀ r, r < cfg.MATRIX_ROWS →
        ((snap r).testBit c = true
          ↔ cfg.row_pins r ≠ pin_t.NO_PIN ∧ rd c r (cfg.row_pins r) = false) := by
  refine ⟨?_, ?_, ?_⟩
  · unfold select_col
    simp only [hs, if_true]
    split <;> rfl
  · intro m w0
    refine ⟨_, _, matrix_read_rows_on_col_eq cfg hr fuel hfr rd m c w0, ?_⟩
    intro r hlt hpin
    unfold col_events reads_events
    simp only [List.mem_append, List.mem_cons, List.mem_flatMap, List.mem_range]
    refine Or.inl (Or.inr (Or.inr ⟨r, hlt, ?_⟩))
    simp [row_events, hpin]
  · obtain ⟨changed, p1, hres, _, hfresh, _, _⟩ :=
      scan_spec cfg hr hc fuel hfr hfc rd persisted w
    refine ⟨changed, p1, _, hres, ?_⟩
    intro r hlt
    rw [hfresh r hlt, testBit_fresh_snapshot cfg rd hw, ← pressed_iff]
    simp [hlt, hcl]

/-- Witness of the amended C7 on the 16-column layout, sentinel column 8. -/
theorem C7_sentinel_column_is_scanned_witness :
    (layout16.MATRIX_ROWS ≤ 255 ∧ layout16.MATRIX_COLS ≤ 255 ∧
      layout16.MATRIX_COLS ≤ layout16.ROW_BITS ∧
      layout16.MATRIX_ROWS < 256 ∧ layout16.MATRIX_COLS < 256 ∧
      8 < layout16.MATRIX_COLS ∧ layout16.col_pins 8 = pin_t.NO_PIN) ∧
    (select_col layout16 8 [] = (true, shiftOutSingle (if 8 = 8 then 0x0 else 0x01) []) ∧
    (∀ m w0, ∃ m1 evs,
      matrix_read_rows_on_col layout16 256 key_2_8 m 8 w0 = some (m1, w0 ++ evs) ∧
      ∀ r, r < layout16.MATRIX_ROWS → layout16.row_pins r ≠ pin_t.NO_PIN →
        Ev.readPin (layout16.row_pins r) (if key_2_8 8 r (layout16.row_pins r) then 1 else 0)
          ∈ evs) ∧
    ∃ changed snap w1,
      matrix_scan_custom layout16 256 key_2_8 zero_matrix [] = some (changed, snap, w1) ∧
      ∀ r, r < layout16.MATRIX_ROWS →
        ((snap r).testBit 8 = true
          ↔ layout16.row_pins r ≠ pin_t.NO_PIN ∧ key_2_8 8 r (layout16.row_pins r) = false)) :=
  ⟨by decide,
    C7_sentinel_column_is_scanned layout16 (by decide) (by decide) (by decide) 256 (by decide)
      (by decide) key_2_8 8 (by decide) (by decide) zero_matrix []⟩

/-! ### The bit-serial output driver -/

theorem and_one_ne_zero_iff (d : Nat) : (d &&& 0x1 ≠ 0) ↔ d.testBit 0 = true := by
  rw [Nat.and_one_is_mod, Nat.testBit_zero]
  simp only [ne_eq, decide_eq_true_eq]
  omega

theorem shiftOutMultiple_loop_log (n : Nat) :
    ∀ (d : Nat) (w : World),
      shiftOutMultiple_loop n d w
        = w ++ (List.range n).flatMap (fun i => bit_events (d.testBit i)) := by
  induction n with
  | zero => intro d w; simp [shiftOutMultiple_loop]
  | succ n ih =>
    intro d w
    have hbit : ∀ i, (d >>> 1).testBit i = d.testBit (i + 1) := by
      intro i
      rw [Nat.testBit_shiftRight, Nat.add_comm]
    rw [List.range_succ_eq_map, List.flatMap_cons, List.flatMap_map]
    unfold shiftOutMultiple_loop
    simp only [ih, hbit]
    by_cases h1 : d &&& 0x1 ≠ 0
    · have hb : d.testBit 0 = true := (and_one_ne_zero_iff d).1 h1
      rw [if_pos h1]
      simp [hb, bit_events, setPinOutput_writeHigh, setPinOutput_writeLow, writePinHigh,
        writePinLow, setPinOutput]
    · have hb : d.testBit 0 = false := by
        rw [← Bool.not_eq_true]
        exact fun h => h1 ((and_one_ne_zero_iff d).2 h)
      rw [if_neg h1]
      simp [hb, bit_events, setPinOutput_writeHigh, setPinOutput_writeLow, writePinHigh,
        writePinLow, setPinOutput]

theorem shiftOutMultiple_log (d : Nat) (w : World) :
    shiftOutMultiple d w
      = w ++ ((List.range 8).flatMap (fun i => bit_events (d.testBit i)) ++ latch_events) := by
  unfold shiftOutMultiple
  simp [shiftOutMultiple_loop_log, latch_events, setPinOutput_writeHigh, setPinOutput_writeLow,
    writePinHigh, writePinLow, setPinOutput]

theorem shiftOutSingle_eq (d : Nat) (w : World) :
    shiftOutSingle d w = w ++ (bit_events (d.testBit 0) ++ latch_events) := by
  unfold shiftOutSingle
  by_cases h1 : d &&& 0x1 ≠ 0
  · have hb : d.testBit 0 = true := (and_one_ne_zero_iff d).1 h1
    rw [if_pos h1]
    simp [hb, bit_events, latch_events, setPinOutput_writeHigh, setPinOutput_writeLow,
      writePinHigh, writePinLow, setPinOutput]
  · have hb : d.testBit 0 = false := by
      rw [← Bool.not_eq_true]
      exact fun h => h1 ((and_one_ne_zero_iff d).2 h)
    rw [if_neg h1]
    simp [hb, bit_events, latch_events, setPinOutput_writeHigh, setPinOutput_writeLow,
      writePinHigh, writePinLow, setPinOutput]

/-! ### The device model -/

theorem run_append (hw : HW) (a b : List Ev) : hw.run (a ++ b) = (hw.run a).run b := by
  unfold HW.run
  rw [List.foldl_append]

theorem run_nil (hw : HW) : hw.run [] = hw := rfl

theorem run_cons (hw : HW) (e : Ev) (tr : List Ev) : hw.run (e :: tr) = (hw.step e).run tr := rfl

theorem run_bit_events (hw : HW) (v : Bool) :
    hw.run (bit_events v)
      = { mode := fun q => if q = CLOCK_PIN then PinMode.output
                    else if q = DATA_PIN then PinMode.output else hw.mode q,
          level := fun q => if q = CLOCK_PIN then false
                    else if q = DATA_PIN then v else hw.level q,
          stage := (v :: hw.stage).take 8,
          latch := hw.latch } := by
  cases v <;>
  · simp only [bit_events, run_cons, run_nil, HW.step]
    congr 1
    · funext q
      by_cases h1 : q = CLOCK_PIN <;> by_cases h2 : q = DATA_PIN <;> simp [h1, h2]
    · funext q
      by_cases h1 : q = CLOCK_PIN <;> by_cases h2 : q = DATA_PIN <;> simp [h1, h2]

theorem run_latch_events (hw : HW) :
    hw.run latch_events
      = { mode := fun q => if q = LATCH_PIN then PinMode.output else hw.mode q,
          level := fun q => if q = LATCH_PIN then false else hw.level q,
          stage := hw.stage,
          latch := hw.stage } := by
  simp only [latch_events, run_cons, run_nil, HW.step]
  congr 1
  · funext q
    by_cases h1 : q = LATCH_PIN <;> simp [h1]
  · funext q
    by_cases h1 : q = LATCH_PIN <;> simp [h1]

/-- The eight latched outputs after a full byte has been shifted out. -/
theorem run_shiftOutMultiple_latch (hw : HW) (b : Nat) :
    (hw.run (shiftOutMultiple b [])).latch = (List.range 8).map (fun j => b.testBit (7 - j)) ∧
    (hw.run (shiftOutMultiple b [])).stage = (List.range 8).map (fun j => b.testBit (7 - j)) := by
  have h8 : List.range 8 = [0, 1, 2, 3, 4, 5, 6, 7] := by decide
  rw [shiftOutMultiple_log, List.nil_append, run_append, run_latch_events, h8]
  simp [run_append, run_bit_events, List.take_take]

/-- C10: for every byte `b`, `shiftOutMultiple b` makes exactly these primitive
calls: for `i = 0 .. 7` in order, the data line configured as output and set to
bit `i` of `b`, then the clock line driven high and then low; then the latch
line driven high and then low, once. On the 8-bit shift register the latched
outputs afterwards are the bits of `b` (output `Qj` is bit `7 - j`), whatever
the register held before. -/
theorem C10_shiftOutMultiple_sequence (b : Nat) (w : World) :
    shiftOutMultiple b w
      = w ++ ((List.range 8).flatMap (fun i =>
                [Ev.setPinOutput DATA_PIN,
                 if b.testBit i then Ev.writePinHigh DATA_PIN else Ev.writePinLow DATA_PIN,
                 Ev.setPinOutput CLOCK_PIN, Ev.writePinHigh CLOCK_PIN,
                 Ev.setPinOutput CLOCK_PIN, Ev.writePinLow CLOCK_PIN])
              ++ [Ev.setPinOutput LATCH_PIN, Ev.writePinHigh LATCH_PIN,
                  Ev.setPinOutput LATCH_PIN, Ev.writePinLow LATCH_PIN]) ∧
    ∀ hw : HW,
      (hw.run (shiftOutMultiple b [])).latch = (List.range 8).map (fun j => b.testBit (7 - j)) :=
  ⟨shiftOutMultiple_log b w, fun hw => (run_shiftOutMultiple_latch hw b).1⟩

/-- The register after the single bit `v` has been shifted in and latched. -/
theorem run_shift_single (hw : HW) (v : Bool) :
    (hw.run (bit_events v ++ latch_events)).stage = (v :: hw.stage).take 8 ∧
    (hw.run (bit_events v ++ latch_events)).latch = (v :: hw.stage).take 8 := by
  rw [run_append, run_latch_events, run_bit_events]
  exact ⟨rfl, rfl⟩

/-- C9: `select_col` always returns `true`. When the column's table entry is a
concrete pin, its only primitive calls are that pin configured as output and
driven low, and the register is left as it was. When the entry is the sentinel,
its only primitive calls are one data write, one clock pulse and one latch
pulse, the data bit being 0 when `col = 8` and 1 otherwise; that bit is shifted
into the register and latched. -/
theorem C9_select_col_effect (cfg : Config) (col : Nat) (w : World) :
    (select_col cfg col w).1 = true ∧
    (cfg.col_pins col ≠ pin_t.NO_PIN →
      (select_col cfg col w).2
        = w ++ [Ev.setPinOutput (cfg.col_pins col), Ev.writePinLow (cfg.col_pins col)] ∧
      ∀ hw : HW,
        (hw.run (select_col cfg col []).2).stage = hw.stage ∧
        (hw.run (select_col cfg col []).2).latch = hw.latch) ∧
    (cfg.col_pins col = pin_t.NO_PIN →
      (select_col cfg col w).2
        = w ++ [Ev.setPinOutput DATA_PIN,
                if col = 8 then Ev.writePinLow DATA_PIN else Ev.writePinHigh DATA_PIN,
                Ev.setPinOutput CLOCK_PIN, Ev.writePinHigh CLOCK_PIN,
                Ev.setPinOutput CLOCK_PIN, Ev.writePinLow CLOCK_PIN,
                Ev.setPinOutput LATCH_PIN, Ev.writePinHigh LATCH_PIN,
                Ev.setPinOutput LATCH_PIN, Ev.writePinLow LATCH_PIN] ∧
      ∀ hw : HW,
        (hw.run (select_col cfg col []).2).stage = (decide (col ≠ 8) :: hw.stage).take 8 ∧
        (hw.run (select_col cfg col []).2).latch = (decide (col ≠ 8) :: hw.stage).take 8) := by
  refine ⟨?_, ?_, ?_⟩
  · rw [select_col_log]
  · intro hp
    have hsel : ∀ w0, (select_col cfg col w0).2
        = w0 ++ [Ev.setPinOutput (cfg.col_pins col), Ev.writePinLow (cfg.col_pins col)] := by
      intro w0
      simp [select_col, hp, setPinOutput_writeLow, writePinLow, setPinOutput]
    refine ⟨hsel w, fun hw => ?_⟩
    rw [hsel []]
    simp [run_cons, run_nil, HW.step]
  · intro hp
    have hsel : ∀ w0, (select_col cfg col w0).2
        = w0 ++ (bit_events (decide (col ≠ 8)) ++ latch_events) := by
      intro w0
      unfold select_col
      simp only [hp, if_true]
      by_cases h8 : col = 8
      · rw [if_pos h8, shiftOutSingle_eq]
        simp [h8]
      · rw [if_neg h8, shiftOutSingle_eq]
        simp [h8]
    refine ⟨?_, fun hw => ?_⟩
    · rw [hsel w]
      by_cases h8 : col = 8 <;> simp [h8, bit_events, latch_events]
    · rw [hsel [], List.nil_append]
      exact run_shift_single hw _

/-! ### Column traversal -/

/-- C8: for every column count `N = MATRIX_COLS` and every pin table (the
counts within the range of the `uint8_t` loop counters, as every column count
that fits a row mask is), one scan returns and its primitive calls are, for
`c = 0, 1, .., N-1` in this order and once each: the select action of column
`c`, the settle delay, the row reads of column `c` (rows in increasing order,
rows without a pin skipped), the deselect action of column `c`, and the second
settle delay. So the deselect of column `c` comes after all its row reads and
before the select of column `c + 1`. -/
theorem C8_columns_in_order (cfg : Config) (hr : cfg.MATRIX_ROWS ≤ 255)
    (hc : cfg.MATRIX_COLS ≤ 255) (fuel : Nat) (hfr : cfg.MATRIX_ROWS < fuel)
    (hfc : cfg.MATRIX_COLS < fuel) (rd : Readings) (persisted : Matrix) (w : World) :
    ∃ changed persisted1,
      matrix_scan_custom cfg fuel rd persisted w
        = some (changed, persisted1,
            w ++ (List.range cfg.MATRIX_COLS).flatMap (fun c =>
              (select_col cfg c []).2
              ++ [Ev.matrix_output_select_delay]
              ++ (List.range cfg.MATRIX_ROWS).flatMap (fun r =>
                    if cfg.row_pins r ≠ pin_t.NO_PIN then
                      [Ev.readPin (cfg.row_pins r) (if rd c r (cfg.row_pins r) then 1 else 0)]
                    else [])
              ++ unselect_col cfg c []
              ++ [Ev.matrix_output_unselect_delay c
                    ((List.range cfg.MATRIX_ROWS).any (fun r =>
                      decide (cfg.row_pins r ≠ pin_t.NO_PIN) && !rd c r (cfg.row_pins r)))])) := by
  obtain ⟨changed, p1, hres, _⟩ := scan_spec cfg hr hc fuel hfr hfc rd persisted w
  refine ⟨changed, p1, ?_⟩
  rw [hres]
  refine congrArg (fun l => some (changed, p1, w ++ l)) ?_
  unfold scan_events
  congr 1
  funext c
  have h1 : row_events cfg rd c = fun r =>
      if cfg.row_pins r ≠ pin_t.NO_PIN then
        [Ev.readPin (cfg.row_pins r) (if rd c r (cfg.row_pins r) then 1 else 0)]
      else [] := by
    funext r
    rfl
  have h2 : pressed cfg rd c = fun r =>
      decide (cfg.row_pins r ≠ pin_t.NO_PIN) && !rd c r (cfg.row_pins r) := by
    funext r
    rfl
  simp only [col_events, reads_events, select_events, unselect_events, h1, h2,
    List.append_assoc, List.singleton_append]

/-- Witness of C8 on the 16-column layout. -/
theorem C8_columns_in_order_witness :
    (layout16.MATRIX_ROWS ≤ 255 ∧ layout16.MATRIX_COLS ≤ 255 ∧
      layout16.MATRIX_ROWS < 256 ∧ layout16.MATRIX_COLS < 256) ∧
    ∃ changed persisted1,
      matrix_scan_custom layout16 256 key_2_8 zero_matrix []
        = some (changed, persisted1,
            [] ++ (List.range layout16.MATRIX_COLS).flatMap (fun c =>
              (select_col layout16 c []).2
              ++ [Ev.matrix_output_select_delay]
              ++ (List.range layout16.MATRIX_ROWS).flatMap (fun r =>
                    if layout16.row_pins r ≠ pin_t.NO_PIN then
                      [Ev.readPin (layout16.row_pins r)
                        (if key_2_8 c r (layout16.row_pins r) then 1 else 0)]
                    else [])
              ++ unselect_col layout16 c []
              ++ [Ev.matrix_output_unselect_delay c
                    ((List.range layout16.MATRIX_ROWS).any (fun r =>
                      decide (layout16.row_pins r ≠ pin_t.NO_PIN)
                        && !key_2_8 c r (layout16.row_pins r)))])) :=
  ⟨by decide,
    C8_columns_in_order layout16 (by decide) (by decide) 256 (by decide) (by decide)
      key_2_8 zero_matrix []⟩

/-! ### Deselecting all columns -/

theorem foldl_log {α : Type} (f : α → World → World) (g : α → List Ev)
    (hfg : ∀ x w, f x w = w ++ g x) (l : List α) (w : World) :
    l.foldl (fun w1 x => f x w1) w = w ++ l.flatMap g := by
  induction l generalizing w with
  | nil => simp
  | cons a l ih =>
    rw [List.foldl_cons, ih, hfg, List.flatMap_cons, List.append_assoc]

/-- The primitive calls of `unselect_cols`: it returns, and appends them. -/
theorem unselect_cols_eq (cfg : Config) (hc : cfg.MATRIX_COLS ≤ 255) (fuel : Nat)
    (hfc : cfg.MATRIX_COLS < fuel) (w : World) :
    unselect_cols cfg fuel w = some (w ++ unselect_cols_events cfg) := by
  unfold unselect_cols
  rw [forU8_range cfg.MATRIX_COLS hc _ (fun x w1 => unselect_col cfg x w1)
    (fun _ _ _ => rfl) fuel hfc,
    foldl_log (fun x w1 => unselect_col cfg x w1) (unselect_events cfg)
      (unselect_col_log cfg)]
  simp only
  rw [shiftOutMultiple_log, unselect_cols_events, shiftOutMultiple_log]
  simp

/-- The primitive calls of `matrix_init_pins`: it returns, and appends them. -/
theorem matrix_init_pins_eq (cfg : Config) (hr : cfg.MATRIX_ROWS ≤ 255)
    (hc : cfg.MATRIX_COLS ≤ 255) (fuel : Nat) (hfr : cfg.MATRIX_ROWS < fuel)
    (hfc : cfg.MATRIX_COLS < fuel) (w : World) :
    matrix_init_pins cfg fuel w = some (w ++ init_events cfg) := by
  unfold matrix_init_pins
  rw [unselect_cols_eq cfg hc fuel hfc]
  simp only
  rw [forU8_range cfg.MATRIX_ROWS hr _
    (fun x w2 => if cfg.row_pins x ≠ pin_t.NO_PIN then
        setPinInputHigh_atomic (cfg.row_pins x) w2 else w2)
    (fun x s _ => by by_cases h : cfg.row_pins x = pin_t.NO_PIN <;> simp [h]) fuel hfr,
    foldl_log _ (fun x =>
      if cfg.row_pins x ≠ pin_t.NO_PIN then [Ev.setPinInputHigh (cfg.row_pins x)] else [])
      (fun x w2 => by
        by_cases h : cfg.row_pins x = pin_t.NO_PIN <;>
          simp [h, setPinInputHigh_atomic, setPinInputHigh])]
  simp [init_events, init_rows_events]
theorem run_shiftOutMultiple_FF (h : HW) :
    h.run (shiftOutMultiple 0xFF [])
      = { mode := fun q =>
            if q = LATCH_PIN then PinMode.output
            else if q = CLOCK_PIN then PinMode.output
            else if q = DATA_PIN then PinMode.output
            else h.mode q,
          level := fun q =>
            if q = LATCH_PIN then false
            else if q = CLOCK_PIN then false
            else if q = DATA_PIN then true
            else h.level q,
          stage := List.replicate 8 true,
          latch := List.replicate 8 true } := by
  have h8 : (List.range 8).flatMap (fun i => bit_events (Nat.testBit 0xFF i))
      = bit_events true ++ bit_events true ++ bit_events true ++ bit_events true
        ++ bit_events true ++ bit_events true ++ bit_events true ++ bit_events true := by
    decide
  rw [shiftOutMultiple_log, List.nil_append, h8]
  simp only [run_append, run_bit_events, run_latch_events]
  congr 1
  · funext q
    by_cases h1 : q = LATCH_PIN <;> by_cases h2 : q = CLOCK_PIN <;>
      by_cases h3 : q = DATA_PIN <;> simp [h1, h2, h3]
  · funext q
    by_cases h1 : q = LATCH_PIN <;> by_cases h2 : q = CLOCK_PIN <;>
      by_cases h3 : q = DATA_PIN <;> simp [h1, h2, h3]

theorem is_col_pin_succ (cfg : Config) (n : Nat) (q : pin_t) :
    is_col_pin cfg (n + 1) q
      = (is_col_pin cfg n q || (decide (cfg.col_pins n = q) && decide (q ≠ pin_t.NO_PIN))) := by
  unfold is_col_pin
  rw [List.range_succ, List.any_append]
  simp

/-- The deselect loop of `unselect_cols` on the pins other than the three
register lines. -/
theorem run_unselect_loop (cfg : Config) (hw : HW) (n : Nat) (q : pin_t)
    (h1 : q ≠ LATCH_PIN) (h2 : q ≠ CLOCK_PIN) (h3 : q ≠ DATA_PIN) :
    (hw.run ((List.range n).flatMap (unselect_events cfg))).mode q
        = (if is_col_pin cfg n q then PinMode.input_high else hw.mode q) ∧
    (hw.run ((List.range n).flatMap (unselect_events cfg))).level q
        = (if is_col_pin cfg n q then true else hw.level q) := by
  induction n with
  | zero => simp [is_col_pin, run_nil]
  | succ n ih =>
    rw [List.range_succ, List.flatMap_append, run_append, is_col_pin_succ]
    simp only [List.flatMap_cons, List.flatMap_nil, List.append_nil]
    generalize hw.run ((List.range n).flatMap (unselect_events cfg)) = h at ih ⊢
    unfold unselect_events unselect_col
    by_cases hp : cfg.col_pins n = pin_t.NO_PIN
    · have hq : (decide (pin_t.NO_PIN = q) && decide (q ≠ pin_t.NO_PIN)) = false := by
        by_cases hqn : q = pin_t.NO_PIN
        · simp [hqn]
        · have hqn2 : ¬ pin_t.NO_PIN = q := fun h => hqn h.symm
          simp [hqn2]
      simp only [hp, if_true, hq, Bool.or_false]
      by_cases h15 : n = 15
      · rw [if_pos h15, shiftOutSingle_eq, List.nil_append, run_append, run_latch_events,
          run_bit_events]
        simp [h1, h2, h3, ih.1, ih.2]
      · rw [if_neg h15, run_nil, ih.1, ih.2]
        exact ⟨rfl, rfl⟩
    · simp only [hp, if_false, setPinInputHigh_atomic, setPinInputHigh, List.nil_append, run_cons,
        run_nil, HW.step, ih.1, ih.2]
      by_cases hq : q = cfg.col_pins n
      · subst hq
        simp [hp]
      · have hq2 : ¬ cfg.col_pins n = q := fun h => hq h.symm
        simp [hq, hq2]
/-- The hardware after `unselect_cols`, whatever the state before. -/
theorem run_unselect_cols (cfg : Config) (hw : HW) :
    hw.run (unselect_cols_events cfg) = after_unselect_cols cfg hw := by
  unfold unselect_cols_events after_unselect_cols
  rw [run_append, run_shiftOutMultiple_FF]
  congr 1
  · funext q
    by_cases h1 : q = LATCH_PIN
    · simp [h1]
    · by_cases h2 : q = CLOCK_PIN
      · simp [h2]
      · by_cases h3 : q = DATA_PIN
        · simp [h3]
        · simp only [h1, h2, h3, if_false]
          exact (run_unselect_loop cfg hw cfg.MATRIX_COLS q h1 h2 h3).1
  · funext q
    by_cases h1 : q = LATCH_PIN
    · simp [h1]
    · by_cases h2 : q = CLOCK_PIN
      · simp [h2]
      · by_cases h3 : q = DATA_PIN
        · simp [h3]
        · simp only [h1, h2, h3, if_false]
          exact (run_unselect_loop cfg hw cfg.MATRIX_COLS q h1 h2 h3).2

theorem after_unselect_cols_idem (cfg : Config) (hw : HW) :
    after_unselect_cols cfg (after_unselect_cols cfg hw) = after_unselect_cols cfg hw := by
  unfold after_unselect_cols
  congr 1
  · funext q
    by_cases h1 : q = LATCH_PIN <;> by_cases h2 : q = CLOCK_PIN <;>
      by_cases h3 : q = DATA_PIN <;>
      by_cases h4 : is_col_pin cfg cfg.MATRIX_COLS q = true <;> simp [h1, h2, h3, h4]
  · funext q
    by_cases h1 : q = LATCH_PIN <;> by_cases h2 : q = CLOCK_PIN <;>
      by_cases h3 : q = DATA_PIN <;>
      by_cases h4 : is_col_pin cfg cfg.MATRIX_COLS q = true <;> simp [h1, h2, h3, h4]

theorem is_col_pin_of (cfg : Config) (n c : Nat) (hc : c < n)
    (hp : cfg.col_pins c ≠ pin_t.NO_PIN) : is_col_pin cfg n (cfg.col_pins c) = true := by
  unfold is_col_pin
  rw [List.any_eq_true]
  exact ⟨c, List.mem_range.2 hc, by simp [hp]⟩

/-- The row loop of `matrix_init_pins` leaves the register alone, and leaves
every pin that is an input with pull-up as it is. -/
theorem run_init_rows (cfg : Config) (h : HW) (n : Nat) :
    (h.run ((List.range n).flatMap (fun x =>
        if cfg.row_pins x ≠ pin_t.NO_PIN then [Ev.setPinInputHigh (cfg.row_pins x)] else []))).stage
      = h.stage ∧
    (h.run ((List.range n).flatMap (fun x =>
        if cfg.row_pins x ≠ pin_t.NO_PIN then [Ev.setPinInputHigh (cfg.row_pins x)] else []))).latch
      = h.latch ∧
    ∀ q, h.mode q = PinMode.input_high → h.level q = true →
      (h.run ((List.range n).flatMap (fun x =>
          if cfg.row_pins x ≠ pin_t.NO_PIN then [Ev.setPinInputHigh (cfg.row_pins x)]
          else []))).mode q = PinMode.input_high ∧
      (h.run ((List.range n).flatMap (fun x =>
          if cfg.row_pins x ≠ pin_t.NO_PIN then [Ev.setPinInputHigh (cfg.row_pins x)]
          else []))).level q = true := by
  induction n with
  | zero =>
    simp only [List.range_zero, List.flatMap_nil, run_nil]
    exact ⟨trivial, trivial, fun q hm hl => ⟨hm, hl⟩⟩
  | succ n ih =>
    rw [List.range_succ, List.flatMap_append, run_append]
    simp only [List.flatMap_cons, List.flatMap_nil, List.append_nil]
    generalize h.run ((List.range n).flatMap (fun x =>
        if cfg.row_pins x ≠ pin_t.NO_PIN then [Ev.setPinInputHigh (cfg.row_pins x)]
        else [])) = h1 at ih ⊢
    obtain ⟨ih1, ih2, ih3⟩ := ih
    by_cases hp : cfg.row_pins n = pin_t.NO_PIN
    · simp only [hp, ne_eq, not_true_eq_false, if_false, run_nil]
      exact ⟨ih1, ih2, ih3⟩
    · simp only [hp, ne_eq, not_false_eq_true, if_true, run_cons, run_nil, HW.step]
      refine ⟨ih1, ih2, fun q hm hl => ?_⟩
      obtain ⟨hm1, hl1⟩ := ih3 q hm hl
      by_cases hq : q = cfg.row_pins n <;> simp [hq, hm1, hl1]

/-- C5: `unselect_cols` returns, and it is a resync that does not depend on
the prior state. From every prior pin configuration and register content, after
it every column on a concrete pin (one that is not a register line) is an input
with pull-up and all eight latched outputs are high; the column pins and the
register are then exactly as right after `matrix_init_pins` from any prior
state; and running `unselect_cols` again changes nothing. -/
theorem C5_unselect_cols_resync (cfg : Config) (hr : cfg.MATRIX_ROWS ≤ 255)
    (hc : cfg.MATRIX_COLS ≤ 255) (fuel : Nat) (hfr : cfg.MATRIX_ROWS < fuel)
    (hfc : cfg.MATRIX_COLS < fuel) :
    ∃ evs init_evs,
      (∀ w, unselect_cols cfg fuel w = some (w ++ evs)) ∧
      (∀ w, matrix_init_pins cfg fuel w = some (w ++ init_evs)) ∧
      ∀ hw : HW,
        (∀ c, c < cfg.MATRIX_COLS → cfg.col_pins c ≠ pin_t.NO_PIN →
          cfg.col_pins c ≠ DATA_PIN → cfg.col_pins c ≠ CLOCK_PIN →
          cfg.col_pins c ≠ LATCH_PIN →
          (hw.run evs).mode (cfg.col_pins c) = PinMode.input_high) ∧
        (hw.run evs).latch = [true, true, true, true, true, true, true, true] ∧
        (∀ hw0 : HW,
          (hw.run evs).latch = (hw0.run init_evs).latch ∧
          (hw.run evs).stage = (hw0.run init_evs).stage ∧
          ∀ c, c < cfg.MATRIX_COLS → cfg.col_pins c ≠ pin_t.NO_PIN →
            cfg.col_pins c ≠ DATA_PIN → cfg.col_pins c ≠ CLOCK_PIN →
            cfg.col_pins c ≠ LATCH_PIN →
            (hw.run evs).mode (cfg.col_pins c) = (hw0.run init_evs).mode (cfg.col_pins c) ∧
            (hw.run evs).level (cfg.col_pins c) = (hw0.run init_evs).level (cfg.col_pins c)) ∧
        (hw.run evs).run evs = hw.run evs := by
  have hcol : ∀ (h : HW) c, c < cfg.MATRIX_COLS → cfg.col_pins c ≠ pin_t.NO_PIN →
      cfg.col_pins c ≠ DATA_PIN → cfg.col_pins c ≠ CLOCK_PIN → cfg.col_pins c ≠ LATCH_PIN →
      (after_unselect_cols cfg h).mode (cfg.col_pins c) = PinMode.input_high ∧
      (after_unselect_cols cfg h).level (cfg.col_pins c) = true := by
    intro h c hlt hp hd hk hl
    simp [after_unselect_cols, hd, hk, hl, is_col_pin_of cfg cfg.MATRIX_COLS c hlt hp]
  refine ⟨unselect_cols_events cfg, init_events cfg,
    fun w => unselect_cols_eq cfg hc fuel hfc w,
    fun w => matrix_init_pins_eq cfg hr hc fuel hfr hfc w, fun hw => ?_⟩
  rw [run_unselect_cols]
  refine ⟨fun c hlt hp hd hk hl => (hcol hw c hlt hp hd hk hl).1, rfl, fun hw0 => ?_, ?_⟩
  · unfold init_events init_rows_events
    rw [run_append, run_unselect_cols]
    obtain ⟨h1, h2, h3⟩ := run_init_rows cfg (after_unselect_cols cfg hw0) cfg.MATRIX_ROWS
    refine ⟨?_, ?_, fun c hlt hp hd hk hl => ?_⟩
    · rw [h2]
      rfl
    · rw [h1]
      rfl
    · obtain ⟨ha, hb⟩ := hcol hw0 c hlt hp hd hk hl
      obtain ⟨ha1, hb1⟩ := h3 (cfg.col_pins c) ha hb
      obtain ⟨ha2, hb2⟩ := hcol hw c hlt hp hd hk hl
      rw [ha1, hb1, ha2, hb2]
      exact ⟨rfl, rfl⟩
  · rw [run_unselect_cols, after_unselect_cols_idem]

/-- Witness of C5 on the 16-column layout. -/
theorem C5_unselect_cols_resync_witness :
    (layout16.MATRIX_ROWS ≤ 255 ∧ layout16.MATRIX_COLS ≤ 255 ∧
      layout16.MATRIX_ROWS < 256 ∧ layout16.MATRIX_COLS < 256) ∧
    ∃ evs init_evs,
      (∀ w, unselect_cols layout16 256 w = some (w ++ evs)) ∧
      (∀ w, matrix_init_pins layout16 256 w = some (w ++ init_evs)) ∧
      ∀ hw : HW,
        (∀ c, c < layout16.MATRIX_COLS → layout16.col_pins c ≠ pin_t.NO_PIN →
          layout16.col_pins c ≠ DATA_PIN → layout16.col_pins c ≠ CLOCK_PIN →
          layout16.col_pins c ≠ LATCH_PIN →
          (hw.run evs).mode (layout16.col_pins c) = PinMode.input_high) ∧
        (hw.run evs).latch = [true, true, true, true, true, true, true, true] ∧
        (∀ hw0 : HW,
          (hw.run evs).latch = (hw0.run init_evs).latch ∧
          (hw.run evs).stage = (hw0.run init_evs).stage ∧
          ∀ c, c < layout16.MATRIX_COLS → layout16.col_pins c ≠ pin_t.NO_PIN →
            layout16.col_pins c ≠ DATA_PIN → layout16.col_pins c ≠ CLOCK_PIN →
            layout16.col_pins c ≠ LATCH_PIN →
            (hw.run evs).mode (layout16.col_pins c)
              = (hw0.run init_evs).mode (layout16.col_pins c) ∧
            (hw.run evs).level (layout16.col_pins c)
              = (hw0.run init_evs).level (layout16.col_pins c)) ∧
        (hw.run evs).run evs = hw.run evs :=
  ⟨by decide,
    C5_unselect_cols_resync layout16 (by decide) (by decide) 256 (by decide) (by decide)⟩

/-! ### The register during scans -/

theorem always_nil (P : HW → Prop) (hw : HW) : HW.always P hw [] ↔ P hw := by
  unfold HW.always
  simp [run_nil]

theorem always_cons (P : HW → Prop) (hw : HW) (e : Ev) (tr : List Ev) :
    HW.always P hw (e :: tr) ↔ P hw ∧ HW.always P (hw.step e) tr := by
  unfold HW.always
  constructor
  · intro h
    refine ⟨by simpa [run_nil] using h 0, fun n => ?_⟩
    simpa [run_cons] using h (n + 1)
  · rintro ⟨h0, h1⟩ n
    cases n with
    | zero => simpa [run_nil] using h0
    | succ n => simpa [run_cons] using h1 n

theorem always_append (P : HW → Prop) (hw : HW) (a b : List Ev) :
    HW.always P hw (a ++ b) ↔ HW.always P hw a ∧ HW.always P (hw.run a) b := by
  induction a generalizing hw with
  | nil =>
    simp only [List.nil_append, run_nil, always_nil, iff_and_self]
    intro h
    simpa [run_nil] using h 0
  | cons e a ih =>
    rw [List.cons_append, always_cons, always_cons, ih, run_cons, and_assoc]

theorem always_run (P : HW → Prop) (hw : HW) (tr : List Ev) (h : HW.always P hw tr) :
    P (hw.run tr) := by
  simpa using h tr.length

theorem steady_run (hw : HW) (tr : List Ev) (hs : Steady hw tr) :
    (hw.run tr).latch = hw.latch ∧ (hw.run tr).stage = hw.stage :=
  always_run _ hw tr hs

theorem steady_append (hw : HW) (a b : List Ev) (ha : Steady hw a) (hb : Steady (hw.run a) b) :
    Steady hw (a ++ b) := by
  unfold Steady at *
  rw [always_append]
  obtain ⟨h1, h2⟩ := steady_run hw a ha
  refine ⟨ha, ?_⟩
  rw [h1, h2] at hb
  exact hb

end Q1Matrix
